import Mathlib

/-!
Shallow embedding of `src/fc/swp.py`, a sliding-window ARQ protocol
(packet codec, sender windowing with retransmission timers, receiver
reorder buffer with cumulative-style ACK processing), together with
theorems settling the specification claims about it.

Bytes are modelled as natural numbers (each < 256 in real byte strings),
byte strings as `List Nat`.  Python dicts keyed by sequence numbers are
modelled as association lists; Python exceptions as `Option`/`Except`.
-/

namespace SWP

/-- Enum `SWPType`: DATA = ord 'D' = 68, ACK = ord 'A' = 65. -/
inductive SWPType where
  | DATA
  | ACK
deriving DecidableEq, Repr

/-- The integer value of the enum member (`SWPType.DATA.value` etc.). -/
def SWPType.value : SWPType → Nat
  | .DATA => 68
  | .ACK => 65

/-- Inverse of `SWPType.value`: `SWPType(x)` in Python, which raises
`ValueError` (here `none`) on an unrecognised tag. -/
def SWPType.ofValue (x : Nat) : Option SWPType :=
  if x = 68 then some .DATA
  else if x = 65 then some .ACK
  else none

/-- Structure `SWPPacket`: kind tag, 32-bit sequence number, payload bytes. -/
structure SWPPacket where
  type : SWPType
  seq_num : Nat
  data : List Nat
deriving DecidableEq, Repr

/-- Constant `SWPPacket.MAX_DATA_SIZE` = 1400. -/
def MAX_DATA_SIZE : Nat := 1400

/-- Constant `SWPPacket._HEADER_SIZE` = `struct.calcsize('!BI')` = 5. -/
def HEADER_SIZE : Nat := 5

/-- Big-endian 4-byte encoding of a 32-bit value, as produced by
`struct.pack('!I', n)`. -/
def be32 (n : Nat) : List Nat :=
  [n / 2 ^ 24 % 256, n / 2 ^ 16 % 256, n / 2 ^ 8 % 256, n % 256]

/-- Big-endian decoding of the 4 bytes `struct.unpack('!I', _)` reads. -/
def unbe32 (bs : List Nat) : Nat :=
  bs.foldl (fun acc b => acc * 256 + b) 0

/-- Method `SWPPacket.to_bytes`: `struct.pack('!BI', type.value, seq_num) + data`.
`struct.pack` raises (here: `none`) when the sequence number does not fit
in an unsigned 32-bit field. -/
def SWPPacket.to_bytes (p : SWPPacket) : Option (List Nat) :=
  if p.seq_num < 2 ^ 32 then
    some (p.type.value :: be32 p.seq_num ++ p.data)
  else
    none

/-- Method `SWPPacket.from_bytes`: unpack `raw[:5]` as `'!BI'` (raises — here
`none` — if fewer than 5 bytes are available), convert the kind byte with
`SWPType(...)` (raises on an unknown tag), and take `raw[5:]` verbatim as
the payload. -/
def SWPPacket.from_bytes (raw : List Nat) : Option SWPPacket :=
  if raw.length < HEADER_SIZE then
    none
  else
    match SWPType.ofValue (raw.headD 0) with
    | none => none
    | some t => some ⟨t, unbe32 ((raw.drop 1).take 4), raw.drop HEADER_SIZE⟩

/-! ## Sender (`SWPSender`)

State: `_next_seq_num`, `_send_buffer` (dict seq → packet, modelled as an
association list in insertion order) and `_timers` (dict seq → Timer; the
timer objects themselves are real-time artefacts, so the dict is modelled
by its key list — a key is present exactly when a timer object is stored
under it).  Outgoing transmissions (`self._llp_endpoint.send(...)`) are
collected as an output list of packets. -/

/-- Constant `SWPSender._SEND_WINDOW_SIZE` = 5. -/
def SEND_WINDOW_SIZE : Nat := 5

/-- Constant `SWPReceiver._RECV_WINDOW_SIZE` = 5 (the receiver window). -/
def RECV_WINDOW_SIZE : Nat := 5

structure SenderState where
  next_seq_num : Nat
  send_buffer : List (Nat × SWPPacket)
  timers : List Nat
deriving DecidableEq, Repr

/-- The key list of the sender's outstanding-window table. -/
def SenderState.bufferKeys (st : SenderState) : List Nat :=
  st.send_buffer.map Prod.fst

/-- Method `SWPSender._send(data)`: if the send buffer already holds
`_SEND_WINDOW_SIZE` entries, return immediately (the segment is neither
recorded nor transmitted); otherwise assign the next sequence number,
build a DATA packet, store it in the buffer, transmit it, and start a
retransmission timer keyed by that sequence number. -/
def SWPSender.sendOne (st : SenderState) (data : List Nat) :
    SenderState × List SWPPacket :=
  if SEND_WINDOW_SIZE ≤ st.send_buffer.length then
    (st, [])
  else
    let seq_num := st.next_seq_num
    let packet : SWPPacket := ⟨.DATA, seq_num, data⟩
    ({ next_seq_num := seq_num + 1,
       send_buffer := st.send_buffer ++ [(seq_num, packet)],
       timers := st.timers ++ [seq_num] },
     [packet])

/-- The chunking of `SWPSender.send`'s loop
`for i in range(0, len(data), MAX_DATA_SIZE)`: successive slices of at
most `MAX_DATA_SIZE` bytes. -/
def chunks (data : List Nat) : List (List Nat) :=
  if h : data.isEmpty then
    []
  else
    data.take MAX_DATA_SIZE :: chunks (data.drop MAX_DATA_SIZE)
termination_by data.length
decreasing_by
  simp only [List.length_drop]
  have : data ≠ [] := by simpa [List.isEmpty_iff] using h
  have : 0 < data.length := List.length_pos.mpr this
  simp [MAX_DATA_SIZE]
  omega

/-- Method `SWPSender.send(data)`: submit each ≤ 1400-byte chunk in order via
`_send`, accumulating the transmitted packets. -/
def SWPSender.send (st : SenderState) (data : List Nat) :
    SenderState × List SWPPacket :=
  (chunks data).foldl
    (fun acc chunk =>
      let r := SWPSender.sendOne acc.1 chunk
      (r.1, acc.2 ++ r.2))
    (st, [])

/-- Method `SWPSender._retransmit(seq_num)`: if `seq_num` is still in the send
buffer, resend the stored packet and replace the timer stored under
`seq_num` by a fresh one (the timer dict's key set is unchanged);
otherwise do nothing. -/
def SWPSender.retransmit (st : SenderState) (seq_num : Nat) :
    SenderState × List SWPPacket :=
  match st.send_buffer.lookup seq_num with
  | none => (st, [])
  | some packet => (st, [packet])

/-- The ACK-processing body of `SWPSender._recv`: for every key of the
send buffer that is `≤ ack_seq_num`, cancel and delete its timer and
delete the buffer entry.  (The timer deletion `del self._timers[seq_num]`
is performed exactly for buffer keys `≤ ack_seq_num`.) -/
def SWPSender.processAck (st : SenderState) (ack_seq_num : Nat) :
    SenderState :=
  { st with
    send_buffer :=
      st.send_buffer.filter (fun p => !(p.1 ≤ ack_seq_num : Bool)),
    timers :=
      st.timers.filter
        (fun s => !((s ≤ ack_seq_num : Bool) && st.bufferKeys.contains s)) }

/-- One iteration of the `SWPSender._recv` loop, given the transport's
`recv()` result (`none` models "no datagram").  `raw is None` is skipped
with `continue`; a datagram that `from_bytes` cannot decode raises an
uncaught exception (modelled as `Except.error`), terminating the loop;
an ACK packet is processed, any other packet is ignored. -/
def SWPSender.recvStep (st : SenderState) (raw? : Option (List Nat)) :
    Except String SenderState :=
  match raw? with
  | none => .ok st
  | some raw =>
    match SWPPacket.from_bytes raw with
    | none => .error "uncaught exception in SWPPacket.from_bytes"
    | some packet =>
      if packet.type = .ACK then
        .ok (SWPSender.processAck st packet.seq_num)
      else
        .ok st

/-! ## Receiver (`SWPReceiver`)

State: `_expected_seq_num`, `_buffer` (dict seq → payload, modelled as an
association list in insertion order) and `_ready_data` (a queue the
application pops from, modelled as the list of payloads pushed so far).
Outgoing ACK transmissions are collected as an output list of packets. -/

structure ReceiverState where
  expected_seq_num : Nat
  buffer : List (Nat × List Nat)
  ready_data : List (List Nat)
deriving DecidableEq, Repr

/-- The key list of the receiver's reorder buffer. -/
def ReceiverState.bufferKeys (st : ReceiverState) : List Nat :=
  st.buffer.map Prod.fst

/-- Python dict assignment `buffer[k] = v`: overwrite the entry if the
key is present, otherwise append a new entry. -/
def dictInsert (buf : List (Nat × List Nat)) (k : Nat) (v : List Nat) :
    List (Nat × List Nat) :=
  if buf.any (fun p => p.1 == k) then
    buf.map (fun p => if p.1 == k then (k, v) else p)
  else
    buf ++ [(k, v)]

/-- Method `SWPReceiver._send_ack(seq_num)`: construct
`SWPPacket(SWPType.ACK, seq_num)` — the payload defaults to the empty
byte string — and transmit it. -/
def SWPReceiver.sendAck (seq_num : Nat) : SWPPacket :=
  ⟨.ACK, seq_num, []⟩

/-- Method `SWPReceiver._process_buffer`: while `_expected_seq_num` is a key of
the reorder buffer, pop its payload, append it to `_ready_data`, and
increment `_expected_seq_num`.  Returns the final cursor, buffer and
ready queue. -/
def SWPReceiver.processBuffer (expected : Nat) (buf : List (Nat × List Nat))
    (ready : List (List Nat)) :
    Nat × List (Nat × List Nat) × List (List Nat) :=
  match h : buf.lookup expected with
  | none => (expected, buf, ready)
  | some data =>
    SWPReceiver.processBuffer (expected + 1)
      (buf.eraseP (fun p => p.1 == expected)) (ready ++ [data])
termination_by buf.length
decreasing_by
  have hmem : ∃ p ∈ buf, p.1 = expected := by
    induction buf with
    | nil => simp [List.lookup] at h
    | cons q qs ih =>
      by_cases hq : q.1 = expected
      · exact ⟨q, List.mem_cons_self q qs, hq⟩
      · have hbe : (expected == q.1) = false :=
          beq_eq_false_iff_ne.mpr (fun he => hq he.symm)
        have : qs.lookup expected = some data := by
          simpa [List.lookup, hbe] using h
        obtain ⟨p, hp, hpe⟩ := ih this
        exact ⟨p, List.mem_cons_of_mem q hp, hpe⟩
  obtain ⟨p, hp, hpe⟩ := hmem
  have : (buf.eraseP (fun p => p.1 == expected)).length = buf.length - 1 :=
    List.length_eraseP_of_mem hp (by simpa using hpe)
  have hpos : 0 < buf.length := List.length_pos.mpr (List.ne_nil_of_mem hp)
  omega

/-- The DATA-processing body of `SWPReceiver._recv`, given a decoded
packet: for a DATA packet with in-window sequence number, store the
payload in the reorder buffer, send an ACK echoing the sequence number,
and run `_process_buffer`; anything else (out-of-window DATA, or a
non-DATA packet) is ignored. -/
def SWPReceiver.handlePacket (st : ReceiverState) (packet : SWPPacket) :
    ReceiverState × List SWPPacket :=
  if packet.type = .DATA then
    let seq_num := packet.seq_num
    if st.expected_seq_num ≤ seq_num ∧
        seq_num < st.expected_seq_num + RECV_WINDOW_SIZE then
      let buf := dictInsert st.buffer seq_num packet.data
      let r := SWPReceiver.processBuffer st.expected_seq_num buf st.ready_data
      (⟨r.1, r.2.1, r.2.2⟩, [SWPReceiver.sendAck seq_num])
    else
      (st, [])
  else
    (st, [])

/-- One iteration of the `SWPReceiver._recv` loop, given the transport's
`recv()` result (`none` models "no datagram").  There is no `None` check:
`from_bytes(None)` raises `TypeError` (modelled as `Except.error`); a
datagram that `from_bytes` cannot decode likewise raises an uncaught
exception; a decoded packet is handled by the DATA-processing body. -/
def SWPReceiver.recvStep (st : ReceiverState) (raw? : Option (List Nat)) :
    Except String (ReceiverState × List SWPPacket) :=
  match raw? with
  | none => .error "uncaught TypeError: from_bytes(None)"
  | some raw =>
    match SWPPacket.from_bytes raw with
    | none => .error "uncaught exception in SWPPacket.from_bytes"
    | some packet => .ok (SWPReceiver.handlePacket st packet)

/-! ## Codec lemmas and claims C6, C8, C10 -/

lemma unbe32_be32 (n : Nat) (h : n < 2 ^ 32) : unbe32 (be32 n) = n := by
  simp only [unbe32, be32, List.foldl]
  omega

lemma ofValue_value (t : SWPType) : SWPType.ofValue t.value = some t := by
  cases t <;> rfl

lemma from_bytes_cons (v a b c d : Nat) (rest : List Nat) :
    SWPPacket.from_bytes (v :: a :: b :: c :: d :: rest) =
      match SWPType.ofValue v with
      | none => none
      | some t => some ⟨t, unbe32 [a, b, c, d], rest⟩ := by
  have h5 : ¬ (v :: a :: b :: c :: d :: rest).length < HEADER_SIZE := by
    simp only [List.length_cons, HEADER_SIZE]
    omega
  unfold SWPPacket.from_bytes
  rw [if_neg h5]
  rfl

/-- C6: for every kind in {DATA, ACK}, every sequence number representable
as an unsigned 32-bit integer, and every payload of at most 1400 bytes,
decoding the encoding yields back the same (kind, sequence, payload)
triple. -/
theorem codec_roundtrip (p : SWPPacket) (hseq : p.seq_num < 2 ^ 32)
    (hlen : p.data.length ≤ MAX_DATA_SIZE) :
    ∃ bs, p.to_bytes = some bs ∧ SWPPacket.from_bytes bs = some p := by
  refine ⟨p.type.value :: (be32 p.seq_num ++ p.data), ?_, ?_⟩
  · unfold SWPPacket.to_bytes
    rw [if_pos hseq]
    rfl
  · have hbe : be32 p.seq_num ++ p.data =
        p.seq_num / 2 ^ 24 % 256 :: p.seq_num / 2 ^ 16 % 256 ::
        p.seq_num / 2 ^ 8 % 256 :: p.seq_num % 256 :: p.data := rfl
    rw [hbe, from_bytes_cons, ofValue_value]
    have h32 : unbe32 [p.seq_num / 2 ^ 24 % 256, p.seq_num / 2 ^ 16 % 256,
        p.seq_num / 2 ^ 8 % 256, p.seq_num % 256] = p.seq_num :=
      unbe32_be32 p.seq_num hseq
    rw [h32]

/-- Witness for C6 at a concrete packet. -/
theorem codec_roundtrip_witness :
    ∃ bs, (SWPPacket.mk .DATA 258 [9, 9]).to_bytes = some bs ∧
      SWPPacket.from_bytes bs = some (SWPPacket.mk .DATA 258 [9, 9]) :=
  codec_roundtrip ⟨.DATA, 258, [9, 9]⟩ (by decide) (by decide)

/-- C8: decode splits the first 5 input bytes as header and the remainder
as payload, and fails (framing error) exactly when the input is shorter
than 5 bytes or the kind byte is neither the DATA tag 0x44 = 68 nor the
ACK tag 0x41 = 65. -/
theorem from_bytes_framing (raw : List Nat) :
    (SWPPacket.from_bytes raw = none ↔
      raw.length < 5 ∨ (raw.headD 0 ≠ 68 ∧ raw.headD 0 ≠ 65)) ∧
    (∀ p, SWPPacket.from_bytes raw = some p →
      p.data = raw.drop 5 ∧ p.seq_num = unbe32 ((raw.drop 1).take 4)) := by
  rcases raw with _ | ⟨v, _ | ⟨a, _ | ⟨b, _ | ⟨c, _ | ⟨d, rest⟩⟩⟩⟩⟩
  case nil => exact ⟨by simp [SWPPacket.from_bytes, HEADER_SIZE],
    by simp [SWPPacket.from_bytes, HEADER_SIZE]⟩
  case cons.nil => exact ⟨by simp [SWPPacket.from_bytes, HEADER_SIZE],
    by simp [SWPPacket.from_bytes, HEADER_SIZE]⟩
  case cons.cons.nil => exact ⟨by simp [SWPPacket.from_bytes, HEADER_SIZE],
    by simp [SWPPacket.from_bytes, HEADER_SIZE]⟩
  case cons.cons.cons.nil => exact ⟨by simp [SWPPacket.from_bytes, HEADER_SIZE],
    by simp [SWPPacket.from_bytes, HEADER_SIZE]⟩
  case cons.cons.cons.cons.nil =>
    exact ⟨by simp [SWPPacket.from_bytes, HEADER_SIZE],
      by simp [SWPPacket.from_bytes, HEADER_SIZE]⟩
  case cons.cons.cons.cons.cons =>
    have hlen5 : ¬ ((v :: a :: b :: c :: d :: rest).length < 5) := by
      simp only [List.length_cons]
      omega
    rw [from_bytes_cons]
    unfold SWPType.ofValue
    by_cases h68 : v = 68
    · subst h68
      simp [hlen5]
    · by_cases h65 : v = 65
      · subst h65
        simp [hlen5, h68]
      · simp [hlen5, h68, h65]

/-- C10: decode enforces no upper bound on payload length — for every
byte string of length at least 5 whose first byte is the DATA tag 68 or
the ACK tag 65, decoding succeeds and returns the entire remainder after
the 5-byte header as the payload, even when that payload exceeds 1400
bytes. -/
theorem from_bytes_no_payload_cap (raw : List Nat) (hlen : 5 ≤ raw.length)
    (hkind : raw.headD 0 = 68 ∨ raw.headD 0 = 65) :
    ∃ p, SWPPacket.from_bytes raw = some p ∧ p.data = raw.drop 5 ∧
      p.data.length = raw.length - 5 := by
  rcases raw with _ | ⟨v, _ | ⟨a, _ | ⟨b, _ | ⟨c, _ | ⟨d, rest⟩⟩⟩⟩⟩ <;>
    first
    | (exfalso; simp only [List.length_cons, List.length_nil] at hlen; omega)
    | skip
  simp only [List.headD_cons] at hkind
  rw [from_bytes_cons]
  rcases hkind with h | h <;> subst h
  · exact ⟨_, rfl, rfl, by simp only [List.length_cons]; omega⟩
  · exact ⟨_, rfl, rfl, by simp only [List.length_cons]; omega⟩

/-- Witness for C10: a 1406-byte input decodes to a 1401-byte payload,
beyond the 1400-byte MAX_DATA_SIZE. -/
theorem from_bytes_no_payload_cap_witness :
    ∃ p, SWPPacket.from_bytes (68 :: 0 :: 0 :: 0 :: 7 :: List.replicate 1401 0)
        = some p ∧ MAX_DATA_SIZE < p.data.length := by
  have hl : (68 :: 0 :: 0 :: 0 :: 7 :: List.replicate 1401 0).length = 1406 := by
    simp only [List.length_cons, List.length_replicate]
  obtain ⟨p, hp, _, hlen⟩ :=
    from_bytes_no_payload_cap (68 :: 0 :: 0 :: 0 :: 7 :: List.replicate 1401 0)
      (by rw [hl]; omega) (Or.inl rfl)
  refine ⟨p, hp, ?_⟩
  rw [hlen, hl]
  simp only [MAX_DATA_SIZE]
  omega

/-! ## Sender lemmas and claims C1, C2, C5, C9 -/

lemma map_fst_filter_key (buf : List (Nat × SWPPacket)) (q : Nat → Bool) :
    (buf.filter (fun p => q p.1)).map Prod.fst = (buf.map Prod.fst).filter q := by
  induction buf with
  | nil => rfl
  | cons p ps ih =>
    by_cases h : q p.1 <;> simp [List.filter_cons, h, ih]

lemma bufferKeys_processAck (st : SenderState) (a s : Nat) :
    s ∈ (SWPSender.processAck st a).bufferKeys ↔
      s ∈ st.bufferKeys ∧ ¬ s ≤ a := by
  simp only [SWPSender.processAck, SenderState.bufferKeys, List.mem_map,
    List.mem_filter]
  constructor
  · rintro ⟨p, ⟨hp, hpred⟩, rfl⟩
    exact ⟨⟨p, hp, rfl⟩, by simpa using hpred⟩
  · rintro ⟨⟨p, hp, rfl⟩, hgt⟩
    exact ⟨p, ⟨hp, by simpa using hgt⟩, rfl⟩

lemma timers_processAck (st : SenderState) (a s : Nat) :
    s ∈ (SWPSender.processAck st a).timers ↔
      s ∈ st.timers ∧ ¬ (s ≤ a ∧ s ∈ st.bufferKeys) := by
  simp only [SWPSender.processAck, List.mem_filter]
  constructor
  · rintro ⟨hmem, hpred⟩
    refine ⟨hmem, ?_⟩
    rintro ⟨hle, hkey⟩
    simp [hle] at hpred
    exact hpred hkey
  · rintro ⟨hmem, hn⟩
    refine ⟨hmem, ?_⟩
    by_cases hle : s ≤ a
    · have hkey : ¬ s ∈ st.bufferKeys := fun hk => hn ⟨hle, hk⟩
      simp [hle, hkey]
    · simp [hle]

/-- C2: processing an ACK with sequence `N` removes, from the
outstanding-window table, every entry with sequence `s ≤ N` together with
its timer, and removes no entry with sequence `> N` (neither its timer,
which stays exactly when it was there). -/
theorem processAck_cumulative (st : SenderState) (ack_seq_num s : Nat)
    (hs : s ∈ st.bufferKeys) :
    (s ≤ ack_seq_num →
      s ∉ (SWPSender.processAck st ack_seq_num).bufferKeys ∧
      s ∉ (SWPSender.processAck st ack_seq_num).timers) ∧
    (ack_seq_num < s →
      s ∈ (SWPSender.processAck st ack_seq_num).bufferKeys ∧
      (s ∈ st.timers → s ∈ (SWPSender.processAck st ack_seq_num).timers)) := by
  constructor
  · intro hle
    constructor
    · rw [bufferKeys_processAck]
      rintro ⟨_, hgt⟩
      exact hgt hle
    · rw [timers_processAck]
      rintro ⟨_, hn⟩
      exact hn ⟨hle, hs⟩
  · intro hgt
    constructor
    · rw [bufferKeys_processAck]
      exact ⟨hs, by omega⟩
    · intro ht
      rw [timers_processAck]
      refine ⟨ht, ?_⟩
      rintro ⟨hle, _⟩
      omega

/-- A sender state with three outstanding segments, for witnesses. -/
def ackDemoState : SenderState :=
  ⟨3, [(0, ⟨.DATA, 0, [10]⟩), (1, ⟨.DATA, 1, [11]⟩), (2, ⟨.DATA, 2, [12]⟩)],
   [0, 1, 2]⟩

/-- Witness for C2: in `ackDemoState`, an ACK for 1 removes entry 0
(and its timer) and keeps entry 2 (and its timer). -/
theorem processAck_cumulative_witness :
    (0 ∉ (SWPSender.processAck ackDemoState 1).bufferKeys ∧
      0 ∉ (SWPSender.processAck ackDemoState 1).timers) ∧
    (2 ∈ (SWPSender.processAck ackDemoState 1).bufferKeys ∧
      2 ∈ (SWPSender.processAck ackDemoState 1).timers) :=
  ⟨(processAck_cumulative ackDemoState 1 0 (by decide)).1 (by decide),
   ⟨((processAck_cumulative ackDemoState 1 2 (by decide)).2 (by decide)).1,
    ((processAck_cumulative ackDemoState 1 2 (by decide)).2 (by decide)).2
      (by decide)⟩⟩

/-- The invariant of C5: the outstanding-window table holds at most
`SEND_WINDOW_SIZE` entries and the timer map has exactly the table's
keys; two auxiliary facts make it inductive: the keys are distinct (as
they are in a Python dict) and every key is below the next sequence
number. -/
def SenderInv (st : SenderState) : Prop :=
  st.send_buffer.length ≤ SEND_WINDOW_SIZE ∧
  st.timers = st.bufferKeys ∧
  st.bufferKeys.Nodup ∧
  ∀ s ∈ st.bufferKeys, s < st.next_seq_num

instance (st : SenderState) : Decidable (SenderInv st) := by
  unfold SenderInv
  infer_instance

lemma sendOne_eq_of_not_full (st : SenderState) (data : List Nat)
    (h : ¬ SEND_WINDOW_SIZE ≤ st.send_buffer.length) :
    SWPSender.sendOne st data =
      ({ next_seq_num := st.next_seq_num + 1,
         send_buffer := st.send_buffer ++
           [(st.next_seq_num, ⟨.DATA, st.next_seq_num, data⟩)],
         timers := st.timers ++ [st.next_seq_num] },
       [⟨.DATA, st.next_seq_num, data⟩]) := by
  unfold SWPSender.sendOne
  rw [if_neg h]

/-- C5: per-segment submission, retransmission and ACK processing each
preserve the invariant that the outstanding-window table holds at most
`SEND_WINDOW_SIZE = 5` entries and that the timer map's key set is
exactly the table's key set. -/
theorem sender_operations_preserve_invariant (st : SenderState)
    (hinv : SenderInv st) (data : List Nat) (seq_num ack_seq_num : Nat) :
    SenderInv (SWPSender.sendOne st data).1 ∧
    SenderInv (SWPSender.retransmit st seq_num).1 ∧
    SenderInv (SWPSender.processAck st ack_seq_num) := by
  obtain ⟨hlen, htim, hnod, hbound⟩ := hinv
  refine ⟨?_, ?_, ?_⟩
  · by_cases hfull : SEND_WINDOW_SIZE ≤ st.send_buffer.length
    · have heq : SWPSender.sendOne st data = (st, []) := by
        unfold SWPSender.sendOne
        rw [if_pos hfull]
      rw [heq]
      exact ⟨hlen, htim, hnod, hbound⟩
    · rw [sendOne_eq_of_not_full st data hfull]
      have hfresh : st.next_seq_num ∉ st.bufferKeys := by
        intro hmem
        exact absurd (hbound _ hmem) (by omega)
      refine ⟨?_, ?_, ?_, ?_⟩
      · show (st.send_buffer ++ _).length ≤ SEND_WINDOW_SIZE
        rw [List.length_append]
        unfold SEND_WINDOW_SIZE at hfull ⊢
        simp only [List.length_cons, List.length_nil]
        omega
      · show st.timers ++ [st.next_seq_num] =
          (st.send_buffer ++
            [(st.next_seq_num,
              SWPPacket.mk SWPType.DATA st.next_seq_num data)]).map Prod.fst
        rw [List.map_append, htim]
        rfl
      · show ((st.send_buffer ++
          [(st.next_seq_num,
            SWPPacket.mk SWPType.DATA st.next_seq_num data)]).map
            Prod.fst).Nodup
        rw [List.map_append, List.nodup_append]
        refine ⟨hnod, List.nodup_singleton _, ?_⟩
        intro a ha hb
        simp only [List.map_cons, List.map_nil, List.mem_singleton] at hb
        subst hb
        exact hfresh ha
      · intro s hsmem
        show s < st.next_seq_num + 1
        simp only [SenderState.bufferKeys, List.map_append, List.map_cons,
          List.map_nil, List.mem_append, List.mem_singleton] at hsmem
        rcases hsmem with h | h
        · exact lt_trans (hbound s h) (by omega)
        · omega
  · unfold SWPSender.retransmit
    cases st.send_buffer.lookup seq_num
    · exact ⟨hlen, htim, hnod, hbound⟩
    · exact ⟨hlen, htim, hnod, hbound⟩
  · refine ⟨?_, ?_, ?_, ?_⟩
    · exact le_trans (List.length_filter_le _ _) hlen
    · show st.timers.filter _ = _
      rw [htim]
      have hcongr :
          st.bufferKeys.filter
              (fun s => !((s ≤ ack_seq_num : Bool) &&
                st.bufferKeys.contains s)) =
            st.bufferKeys.filter (fun s => !(s ≤ ack_seq_num : Bool)) := by
        apply List.filter_congr
        intro a ha
        by_cases hle : a ≤ ack_seq_num
        · simp [hle, ha]
        · simp [hle]
      rw [hcongr]
      show _ = (st.send_buffer.filter (fun p => !(p.1 ≤ ack_seq_num : Bool))).map
        Prod.fst
      rw [map_fst_filter_key st.send_buffer (fun s => !(s ≤ ack_seq_num : Bool))]
      rfl
    · show ((st.send_buffer.filter
        (fun p => !(p.1 ≤ ack_seq_num : Bool))).map Prod.fst).Nodup
      rw [map_fst_filter_key st.send_buffer (fun s => !(s ≤ ack_seq_num : Bool))]
      exact List.Nodup.filter _ hnod
    · intro s hsmem
      rw [bufferKeys_processAck] at hsmem
      exact hbound s hsmem.1

/-- Witness for C5 at a concrete invariant-satisfying state. -/
theorem sender_operations_preserve_invariant_witness :
    SenderInv (SWPSender.sendOne ackDemoState [1]).1 ∧
    SenderInv (SWPSender.retransmit ackDemoState 0).1 ∧
    SenderInv (SWPSender.processAck ackDemoState 1) :=
  sender_operations_preserve_invariant ackDemoState (by decide) [1] 0 1

/-- A sender state whose outstanding-window table already holds
`SEND_WINDOW_SIZE = 5` entries. -/
def fullWindowState : SenderState :=
  ⟨5, [(0, ⟨.DATA, 0, [0]⟩), (1, ⟨.DATA, 1, [1]⟩), (2, ⟨.DATA, 2, [2]⟩),
       (3, ⟨.DATA, 3, [3]⟩), (4, ⟨.DATA, 4, [4]⟩)], [0, 1, 2, 3, 4]⟩

/-- C1 (refuting evaluation): submitting a segment while the
outstanding-window table holds `SEND_WINDOW_SIZE` entries leaves the
sender state completely unchanged and transmits nothing — the segment is
silently discarded; the sender has no pending-segment queue at all, so
the segment is never transmitted later either. -/
theorem sendOne_drops_on_full_window :
    SWPSender.sendOne fullWindowState [9] = (fullWindowState, []) := rfl

/-- C9 (refuting evaluation): a malformed datagram (here the single byte
0x44) makes the sender's receive-loop body raise an uncaught decode
exception, and a transport `recv()` result of "no data" (`None`) makes
the receiver's receive-loop body raise an uncaught `TypeError` — in both
cases the loop terminates instead of continuing. -/
theorem recv_loops_not_exception_safe :
    SWPSender.recvStep fullWindowState (some [68]) =
      .error "uncaught exception in SWPPacket.from_bytes" ∧
    SWPReceiver.recvStep ⟨0, [], []⟩ none =
      .error "uncaught TypeError: from_bytes(None)" :=
  ⟨rfl, rfl⟩

/-! ## Receiver lemmas and claims C3, C4, C7 -/

lemma lookup_cons (k : Nat) (q : Nat × List Nat) (qs : List (Nat × List Nat)) :
    (q :: qs).lookup k = if k = q.1 then some q.2 else qs.lookup k := by
  obtain ⟨a, b⟩ := q
  by_cases h : k = a
  · simp [List.lookup, h]
  · have hf : (k == a) = false := beq_eq_false_iff_ne.mpr h
    simp [List.lookup, hf, h]

lemma lookup_eraseP_ne (buf : List (Nat × List Nat)) (e k : Nat)
    (hne : k ≠ e) :
    (buf.eraseP (fun p => p.1 == e)).lookup k = buf.lookup k := by
  induction buf with
  | nil => rfl
  | cons q qs ih =>
    by_cases hq : q.1 = e
    · have hk : ¬ k = q.1 := fun hkq => hne (hq ▸ hkq)
      rw [List.eraseP_cons_of_pos (by simpa using hq), lookup_cons, if_neg hk]
    · rw [List.eraseP_cons_of_neg (by simpa using hq), lookup_cons, lookup_cons,
        ih]

lemma mem_keys_eraseP_ne (buf : List (Nat × List Nat)) (e k : Nat)
    (hne : k ≠ e) (hk : k ∈ buf.map Prod.fst) :
    k ∈ (buf.eraseP (fun p => p.1 == e)).map Prod.fst := by
  revert hk
  induction buf with
  | nil => intro hk; simp at hk
  | cons q qs ih =>
    intro hk
    by_cases hq : q.1 = e
    · rw [List.eraseP_cons_of_pos (by simpa using hq)]
      simp only [List.map_cons, List.mem_cons] at hk
      rcases hk with h | h
      · exact absurd (h.trans hq) hne
      · exact h
    · rw [List.eraseP_cons_of_neg (by simpa using hq)]
      simp only [List.map_cons, List.mem_cons] at hk ⊢
      rcases hk with h | h
      · exact Or.inl h
      · exact Or.inr (ih h)

lemma mem_keys_dictInsert (buf : List (Nat × List Nat)) (k : Nat)
    (v : List Nat) :
    k ∈ (dictInsert buf k v).map Prod.fst := by
  unfold dictInsert
  by_cases h : buf.any (fun p => p.1 == k) = true
  · rw [if_pos h]
    obtain ⟨p, hp, hpk⟩ := List.any_eq_true.mp h
    refine List.mem_map.mpr
      ⟨if (p.1 == k) = true then (k, v) else p,
        List.mem_map.mpr ⟨p, hp, rfl⟩, ?_⟩
    rw [if_pos hpk]
  · rw [if_neg h]
    simp

lemma processBuffer_eq_none (e : Nat) (buf : List (Nat × List Nat))
    (ready : List (List Nat)) (h : buf.lookup e = none) :
    SWPReceiver.processBuffer e buf ready = (e, buf, ready) := by
  unfold SWPReceiver.processBuffer
  split
  · rfl
  · rename_i data heq
    rw [h] at heq
    cases heq

lemma processBuffer_eq_some (e : Nat) (buf : List (Nat × List Nat))
    (ready : List (List Nat)) (data : List Nat)
    (h : buf.lookup e = some data) :
    SWPReceiver.processBuffer e buf ready =
      SWPReceiver.processBuffer (e + 1) (buf.eraseP (fun p => p.1 == e))
        (ready ++ [data]) := by
  conv_lhs => unfold SWPReceiver.processBuffer
  split
  · rename_i heq
    rw [h] at heq
    cases heq
  · rename_i d heq
    rw [h] at heq
    injection heq with h2
    subst h2
    rfl

lemma processBuffer_le (e : Nat) (buf : List (Nat × List Nat))
    (ready : List (List Nat)) :
    e ≤ (SWPReceiver.processBuffer e buf ready).1 := by
  induction e, buf, ready using SWPReceiver.processBuffer.induct with
  | case1 e buf ready hnone =>
    rw [processBuffer_eq_none e buf ready hnone]
  | case2 e buf ready data hsome ih =>
    rw [processBuffer_eq_some e buf ready data hsome]
    omega

lemma processBuffer_mem_keys (e : Nat) (buf : List (Nat × List Nat))
    (ready : List (List Nat)) (k : Nat) (hk : k ∈ buf.map Prod.fst) :
    k ∈ (SWPReceiver.processBuffer e buf ready).2.1.map Prod.fst ∨
      k < (SWPReceiver.processBuffer e buf ready).1 := by
  induction e, buf, ready using SWPReceiver.processBuffer.induct with
  | case1 e buf ready hnone =>
    rw [processBuffer_eq_none e buf ready hnone]
    exact Or.inl hk
  | case2 e buf ready data hsome ih =>
    rw [processBuffer_eq_some e buf ready data hsome]
    by_cases hke : k = e
    · right
      subst hke
      have h1 : k + 1 ≤ (SWPReceiver.processBuffer (k + 1)
          (buf.eraseP (fun p => p.1 == k)) (ready ++ [data])).1 :=
        processBuffer_le (k + 1) _ _
      omega
    · exact ih (mem_keys_eraseP_ne buf e k hke hk)

/-- C4: the reassembly loop repeatedly pops `expected_seq_num` while it
is a key of the reorder buffer, appending its payload to the delivery
queue and incrementing the cursor; the delivery queue is extended by
exactly the payloads of the contiguous run starting at the old cursor, in
strictly increasing, gap-free sequence order; the cursor advances only
through sequence numbers present in the buffer and stops at the first
missing one. -/
theorem processBuffer_delivers_in_order (expected : Nat)
    (buf : List (Nat × List Nat)) (ready : List (List Nat)) :
    expected ≤ (SWPReceiver.processBuffer expected buf ready).1 ∧
    (SWPReceiver.processBuffer expected buf ready).2.2 =
      ready ++
        (List.range ((SWPReceiver.processBuffer expected buf ready).1 -
          expected)).map
          (fun j => (buf.lookup (expected + j)).getD []) ∧
    (∀ j, j < (SWPReceiver.processBuffer expected buf ready).1 - expected →
      (buf.lookup (expected + j)).isSome = true) ∧
    (SWPReceiver.processBuffer expected buf ready).2.1.lookup
      (SWPReceiver.processBuffer expected buf ready).1 = none := by
  induction expected, buf, ready using SWPReceiver.processBuffer.induct with
  | case1 e buf ready hnone =>
    rw [processBuffer_eq_none e buf ready hnone]
    refine ⟨le_rfl, by simp, ?_, hnone⟩
    intro j hj
    simp at hj
  | case2 e buf ready data hsome ih =>
    rw [processBuffer_eq_some e buf ready data hsome]
    obtain ⟨ih1, ih2, ih3, ih4⟩ := ih
    have hpt : ∀ j,
        (((buf.eraseP (fun p => p.1 == e)).lookup (e + 1 + j)).getD []) =
          ((buf.lookup (e + (j + 1))).getD []) := by
      intro j
      rw [lookup_eraseP_ne buf e (e + 1 + j) (by omega)]
      have harith : e + 1 + j = e + (j + 1) := by omega
      rw [harith]
    refine ⟨by omega, ?_, ?_, ih4⟩
    · rw [ih2]
      have hk : (SWPReceiver.processBuffer (e + 1)
          (buf.eraseP (fun p => p.1 == e)) (ready ++ [data])).1 - e =
          ((SWPReceiver.processBuffer (e + 1)
            (buf.eraseP (fun p => p.1 == e)) (ready ++ [data])).1 - (e + 1))
            + 1 := by
        omega
      rw [hk, List.range_succ_eq_map, List.map_cons, List.map_map,
        List.append_assoc, List.singleton_append]
      have h0 : (buf.lookup (e + 0)).getD [] = data := by
        rw [Nat.add_zero, hsome]
        rfl
      rw [h0]
      have hmaps :
          (List.range ((SWPReceiver.processBuffer (e + 1)
              (buf.eraseP (fun p => p.1 == e)) (ready ++ [data])).1 -
                (e + 1))).map
            (fun j => (((buf.eraseP (fun p => p.1 == e)).lookup
              (e + 1 + j)).getD [])) =
          (List.range ((SWPReceiver.processBuffer (e + 1)
              (buf.eraseP (fun p => p.1 == e)) (ready ++ [data])).1 -
                (e + 1))).map
            ((fun j => (buf.lookup (e + j)).getD []) ∘ Nat.succ) := by
        apply List.map_congr_left
        intro j _
        show _ = (buf.lookup (e + (Nat.succ j))).getD []
        rw [← hpt j]
      rw [hmaps]
    · intro j hj
      cases j with
      | zero =>
        rw [Nat.add_zero, hsome]
        rfl
      | succ j' =>
        have harith : e + (j' + 1) = e + 1 + j' := by omega
        rw [harith, ← lookup_eraseP_ne buf e (e + 1 + j') (by omega)]
        exact ih3 j' (by omega)

/-- C3: a DATA segment with sequence `s` is accepted — buffered (after
the step, `s` is either still a key of the reorder buffer or already
delivered past the cursor) and acknowledged — if and only if
`expected_seq_num ≤ s < expected_seq_num + RECV_WINDOW_SIZE`; otherwise
it is discarded silently: no ACK is sent and the receiver state (reorder
buffer, delivery cursor, delivery queue) is completely unchanged. -/
theorem receiver_window_check (st : ReceiverState) (packet : SWPPacket)
    (hd : packet.type = .DATA) :
    (¬ (st.expected_seq_num ≤ packet.seq_num ∧
        packet.seq_num < st.expected_seq_num + RECV_WINDOW_SIZE) →
      SWPReceiver.handlePacket st packet = (st, [])) ∧
    ((st.expected_seq_num ≤ packet.seq_num ∧
        packet.seq_num < st.expected_seq_num + RECV_WINDOW_SIZE) →
      (SWPReceiver.handlePacket st packet).2 =
        [SWPReceiver.sendAck packet.seq_num] ∧
      (packet.seq_num ∈ (SWPReceiver.handlePacket st packet).1.bufferKeys ∨
        packet.seq_num <
          (SWPReceiver.handlePacket st packet).1.expected_seq_num)) := by
  constructor
  · intro hw
    simp only [SWPReceiver.handlePacket]
    rw [if_pos hd, if_neg hw]
  · intro hw
    simp only [SWPReceiver.handlePacket]
    rw [if_pos hd, if_pos hw]
    refine ⟨rfl, ?_⟩
    show packet.seq_num ∈ (SWPReceiver.processBuffer st.expected_seq_num
        (dictInsert st.buffer packet.seq_num packet.data)
        st.ready_data).2.1.map Prod.fst ∨
      packet.seq_num < (SWPReceiver.processBuffer st.expected_seq_num
        (dictInsert st.buffer packet.seq_num packet.data)
        st.ready_data).1
    exact processBuffer_mem_keys _ _ _ _
      (mem_keys_dictInsert st.buffer packet.seq_num packet.data)

/-- Witness for C3: with `expected_seq_num = 0` and window 5, sequence 7
is silently discarded with no state change, while sequence 3 is
acknowledged. -/
theorem receiver_window_check_witness :
    SWPReceiver.handlePacket ⟨0, [], []⟩ (SWPPacket.mk SWPType.DATA 7 [77]) =
      (⟨0, [], []⟩, []) ∧
    (SWPReceiver.handlePacket ⟨0, [], []⟩
      (SWPPacket.mk SWPType.DATA 3 [33])).2 = [SWPReceiver.sendAck 3] :=
  ⟨(receiver_window_check ⟨0, [], []⟩ (SWPPacket.mk SWPType.DATA 7 [77])
      rfl).1 (by decide),
   ((receiver_window_check ⟨0, [], []⟩ (SWPPacket.mk SWPType.DATA 3 [33])
      rfl).2 (by decide)).1⟩

/-- C7: for every accepted DATA segment with sequence `s`, the receiver
sends exactly one ACK segment, whose sequence field equals `s` (a
per-segment echo) and whose payload is empty. -/
theorem receiver_ack_per_segment (st : ReceiverState) (packet : SWPPacket)
    (hd : packet.type = .DATA)
    (hw : st.expected_seq_num ≤ packet.seq_num ∧
      packet.seq_num < st.expected_seq_num + RECV_WINDOW_SIZE) :
    (SWPReceiver.handlePacket st packet).2 =
      [SWPPacket.mk SWPType.ACK packet.seq_num []] ∧
    SWPReceiver.sendAck packet.seq_num =
      SWPPacket.mk SWPType.ACK packet.seq_num [] := by
  constructor
  · simp only [SWPReceiver.handlePacket]
    rw [if_pos hd, if_pos hw]
    rfl
  · rfl

/-- Witness for C7 at a concrete accepted segment. -/
theorem receiver_ack_per_segment_witness :
    (SWPReceiver.handlePacket ⟨0, [], []⟩
      (SWPPacket.mk SWPType.DATA 2 [22])).2 =
      [SWPPacket.mk SWPType.ACK 2 []] ∧
    SWPReceiver.sendAck 2 = SWPPacket.mk SWPType.ACK 2 [] :=
  receiver_ack_per_segment ⟨0, [], []⟩ (SWPPacket.mk SWPType.DATA 2 [22])
    rfl (by decide)

end SWP
